import Mathlib

/-!
Verification development for the NCBI/FlyBase genome-database connector
(`genhub/ncbi_flybase.py`).  The Python source is shallowly embedded:

* `gisub` models `re.sub('>gi\\|\\d+\\|(ref|gb)\\|([^\\|]+)\\S+', '>\\g<2>', line)`
  as used by `FlyBaseDB.format_fasta`, with the backtracking semantics of the
  Python regex engine specialised to this fixed pattern (greedy `\d+`,
  ordered alternation `ref|gb`, greedy `[^|]+` with backtracking against a
  final greedy `\S+`).
* `FlyBaseDB.init` models `FlyBaseDB.__init__` (the `source`/`species`
  assertions and the hard-coded base URL).
* `FlyBaseDB.gdnaurl`, `gff3url`, `proturl` model the three URL properties.
* `format_gff3` models `FlyBaseDB.format_gff3` as a state transformer over
  the temp-filter-file / canonical-file state, parameterised by the outcome
  of the external shell pipeline (which is a black box to the Python code).

Whitespace and digit classes are the ASCII fragments of Python's `\s`/`\d`.
-/

/-- ASCII whitespace, the fragment of Python's `\s` relevant here. -/
def isWSb (c : Char) : Bool :=
  c == ' ' || c == '\t' || c == '\n' || c == '\x0b' || c == '\x0c' || c == '\r'

/-- Character class `[^|]` of the accession group. -/
def notBar (c : Char) : Bool := !(c == '|')

/-- Character class `\S`. -/
def nonWS (c : Char) : Bool := !(isWSb c)

/-- One backtracking attempt for `([^\|]+)\S+`: the group takes `k` chars of
`s5`, then `\S+` must match greedily starting at position `k`.  Returns the
group and the total number of characters consumed by `([^\|]+)\S+`. -/
def groupTry (s5 : List Char) (k : Nat) : Option (List Char × Nat) :=
  match s5.drop k with
  | [] => none
  | c :: rest =>
      if isWSb c then none
      else some (s5.take k, k + 1 + (rest.takeWhile nonWS).length)

/-- Greedy backtracking for `([^\|]+)\S+`: try group lengths `j, j-1, …, 1`. -/
def groupSearch (s5 : List Char) : Nat → Option (List Char × Nat)
  | 0 => none
  | Nat.succ k =>
      match groupTry s5 (k + 1) with
      | some r => some r
      | none => groupSearch s5 k

/-- Python-regex match of `([^\|]+)\S+` at the head of `s5`. -/
def groupMatch (s5 : List Char) : Option (List Char × Nat) :=
  groupSearch s5 (s5.takeWhile notBar).length

/-- Ordered alternation `(ref|gb)` at the head of the input; returns the
number of characters consumed and the remainder. -/
def giRefGb (s : List Char) : Option (Nat × List Char) :=
  match s with
  | a :: b :: rest =>
      if a == 'r' then
        match rest with
        | c :: s4 => if b == 'e' && c == 'f' then some (3, s4) else none
        | [] => none
      else if a == 'g' && b == 'b' then some (2, rest)
      else none
  | _ => none

/-- The pattern after the literal `>gi|`: `\d+\|(ref|gb)\|([^\|]+)\S+`.
Returns group 2 and the length of the whole match (including the `>gi|`). -/
def structAfterGi (s1 : List Char) : Option (List Char × Nat) :=
  let ds := s1.takeWhile Char.isDigit
  match s1.dropWhile Char.isDigit with
  | [] => none
  | e :: s3 =>
      if ds.length == 0 || !(e == '|') then none
      else
        match giRefGb s3 with
        | none => none
        | some (rl, s4) =>
            match s4 with
            | [] => none
            | f :: s5 =>
                if f == '|' then
                  match groupMatch s5 with
                  | some (g, glen) => some (g, 4 + ds.length + 1 + rl + 1 + glen)
                  | none => none
                else none

/-- Match of the full pattern `>gi\|\d+\|(ref|gb)\|([^\|]+)\S+` at the head
of `s`; returns group 2 and the match length. -/
def giMatch (s : List Char) : Option (List Char × Nat) :=
  match s with
  | a :: b :: c :: d :: s1 =>
      if a == '>' && b == 'g' && c == 'i' && d == '|' then structAfterGi s1
      else none
  | _ => none

/-- Fuelled scanner of `re.sub`: at each position try the pattern; on a match
emit `>` plus group 2 and resume after the match, otherwise copy one
character.  `fuel ≥ length` makes the fuel irrelevant. -/
def gisubGo : Nat → List Char → List Char
  | 0, _ => []
  | _ + 1, [] => []
  | fuel + 1, c :: cs =>
      match giMatch (c :: cs) with
      | some (g, n) => '>' :: (g ++ gisubGo fuel (List.drop n (c :: cs)))
      | none => c :: gisubGo fuel cs

/-- The substitution `re.sub('>gi\\|\\d+\\|(ref|gb)\\|([^\\|]+)\\S+', '>\\g<2>', s)`. -/
def gisub (s : List Char) : List Char := gisubGo s.length s

/-- Python `line.startswith('>')`. -/
def startsGt : List Char → Bool
  | c :: _ => c == '>'
  | [] => false

/-- One line of `FlyBaseDB.format_fasta`: header lines (starting with `>`)
go through the substitution, all other lines pass through unchanged. -/
def format_fasta_line (l : List Char) : List Char :=
  if startsGt l then gisub l else l

/-- `FlyBaseDB.format_fasta`: the stream transform, line by line. -/
def format_fasta (lines : List (List Char)) : List (List Char) :=
  lines.map format_fasta_line

/-- Organism configuration mapping as read by the connector: the keys
`source` and `species` may be absent, `accessions` is the ordered list. -/
structure GenhubConfig where
  source : Option String
  species : Option String
  accessions : List String
deriving DecidableEq, Repr

/-- The connector object produced by `FlyBaseDB.__init__`. -/
structure FlyBaseDB where
  label : String
  workdir : String
  config : GenhubConfig
  specbase : String
deriving DecidableEq, Repr

/-- The hard-coded `self.specbase` of `FlyBaseDB.__init__`. -/
def fbBase : String :=
  "ftp://ftp.ncbi.nih.gov/genomes/Drosophila_melanogaster/RELEASE_5_48"

/-- `FlyBaseDB.__init__`: asserts `config['source'] == 'ncbi_flybase'` (a
missing key raises `KeyError`, a mismatch `AssertionError`), asserts
`'species' in config`, and stores the hard-coded base URL. -/
def FlyBaseDB.init (label : String) (conf : GenhubConfig) (workdir : String) :
    Except String FlyBaseDB :=
  match conf.source with
  | none => Except.error "KeyError: source"
  | some src =>
      if src = "ncbi_flybase" then
        match conf.species with
        | none => Except.error "AssertionError: species not in config"
        | some _ =>
            Except.ok
              { label := label, workdir := workdir, config := conf,
                specbase := fbBase }
      else Except.error "AssertionError: source mismatch"

/-- Property `gdnaurl`: one URL `<specbase>/<accession>.fna` per accession. -/
def FlyBaseDB.gdnaurl (db : FlyBaseDB) : List String :=
  db.config.accessions.map (fun acc => db.specbase ++ "/" ++ acc ++ ".fna")

/-- Property `gff3url`: one URL `<specbase>/<accession>.gff` per accession. -/
def FlyBaseDB.gff3url (db : FlyBaseDB) : List String :=
  db.config.accessions.map (fun acc => db.specbase ++ "/" ++ acc ++ ".gff")

/-- Property `proturl`: one URL `<specbase>/<accession>.faa` per accession. -/
def FlyBaseDB.proturl (db : FlyBaseDB) : List String :=
  db.config.accessions.map (fun acc => db.specbase ++ "/" ++ acc ++ ".faa")

/-- Property `gdnafilename`: `'%s.orig.fa.gz' % label`. -/
def FlyBaseDB.gdnafilename (db : FlyBaseDB) : String :=
  db.label ++ ".orig.fa.gz"

/-- Modelled from the spec: `GenomeDB.gdnapath` (base-class code not under
`src/`) joins the working directory, the organism label and `gdnafilename`;
the unit test pins `./Dmel/Dmel.orig.fa.gz` for workdir `.` and label `Dmel`. -/
def FlyBaseDB.gdnapath (db : FlyBaseDB) : String :=
  db.workdir ++ "/" ++ db.label ++ "/" ++ db.gdnafilename

/-- Python `str.split('\n')`. -/
def splitNl : List Char → List (List Char)
  | [] => [[]]
  | c :: cs =>
      match splitNl cs with
      | [] => [[]]
      | h :: t => if c = '\n' then [] :: h :: t else (c :: h) :: t

/-- Boolean list-prefix test (needle against haystack). -/
def hasPre : List Char → List Char → Bool
  | [], _ => true
  | _ :: _, [] => false
  | a :: as, b :: bs => a == b && hasPre as bs

/-- Python substring containment `needle in line`. -/
def subneedle (needle : List Char) : List Char → Bool
  | [] => needle.isEmpty
  | c :: cs => hasPre needle (c :: cs) || subneedle needle cs

/-- First benign-warning substring suppressed by `format_gff3`. -/
def needle1 : List Char := "has not been previously introduced".toList

/-- Second benign-warning substring suppressed by `format_gff3`. -/
def needle2 : List Char := "does not begin with \"##gff-version\"".toList

/-- The condition under which `format_gff3` prints a diagnostic line to the
log stream (the body of its `for line in stderr.split('\n')` loop). -/
def surfacePred (l : List Char) : Bool :=
  !(subneedle needle1 l) && !(subneedle needle2 l) && !(l.isEmpty)

/-- The `for` loop of `format_gff3` over `stderr.split('\n')`: lines passing
`surfacePred` are printed to the log stream, in order. -/
def surfaceLines : List (List Char) → List (List Char)
  | [] => []
  | l :: ls => if surfacePred l then l :: surfaceLines ls else surfaceLines ls

/-- The `cmds` list built by `format_gff3`, in construction order. -/
def format_gff3_cmds (gff3path excludefile gff3file : String) : List String :=
  let cmds : List String := []
  let cmds := cmds ++ ["gunzip -c " ++ gff3path]
  let cmds := cmds ++ ["grep -vf " ++ excludefile]
  let cmds := cmds ++ ["genhub-fix-trna.py"]
  let cmds := cmds ++ ["tidygff3"]
  let cmds := cmds ++ ["genhub-format-gff3.py --source ncbi_flybase -"]
  let cmds := cmds ++ ["gt gff3 -sort -tidy -o " ++ gff3file ++ " -force"]
  cmds

/-- Behaviour of the external shell pipeline run by `format_gff3`: its exit
status, its captured standard-error text, and the canonical-file content it
wrote (if any).  The pipeline is a black box to the Python code. -/
structure ChainEnv where
  returncode : Int
  stderr : List Char
  chainOutput : Option String
deriving DecidableEq, Repr

/-- Modelled from the spec: the invocation contract of the external GFF3
toolchain (§4.3/§8) — on a non-zero exit status of the combined chain no
canonical annotation file is produced. -/
def ChainContract (env : ChainEnv) : Prop :=
  env.returncode ≠ 0 → env.chainOutput = none

/-- File-system state relevant to `format_gff3`: whether the temporary
exclusion-filter file exists, and the content of the canonical annotation
file (`none` if absent). -/
structure PipeState where
  filterFileExists : Bool
  canonical : Option String
deriving DecidableEq, Repr

/-- Result of one `format_gff3` call: the returned/raised outcome, the final
file-system state, the diagnostic lines surfaced to the log stream, and the
shell command string that was run. -/
structure PipeOutcome where
  result : Except String Unit
  state : PipeState
  log : List (List Char)
  command : String
deriving Repr

/-- `FlyBaseDB.format_gff3`: build the six-stage command string, create the
temporary exclusion-filter file (`genhub.conf.conf_filter_file`, modelled
from the spec as creating the pipeline-run-scoped temp file), run the chain,
surface the filtered diagnostics, assert a zero exit status (raising
`AssertionError` otherwise), and finally `os.unlink` the filter file. -/
def format_gff3 (gff3path excludefile gff3file : String) (env : ChainEnv)
    (st : PipeState) : PipeOutcome :=
  let cmds := format_gff3_cmds gff3path excludefile gff3file
  let commands := String.intercalate " | " cmds
  let st1 : PipeState := { st with filterFileExists := true }
  let st2 : PipeState :=
    { st1 with
      canonical := match env.chainOutput with
        | some o => some o
        | none => st1.canonical }
  let log := surfaceLines (splitNl env.stderr)
  if env.returncode = 0 then
    { result := Except.ok (),
      state := { st2 with filterFileExists := false },
      log := log, command := commands }
  else
    { result := Except.error ("annot cleanup command failed: " ++ commands),
      state := st2, log := log, command := commands }

/-- Strings in which no position matches the header pattern; such strings
are fixed points of `gisub`. -/
def NoMatch (t : List Char) : Prop := ∀ u, u <:+ t → giMatch u = none

/-- Sample configuration with one accession. -/
def confDmel1 : GenhubConfig :=
  { source := some "ncbi_flybase", species := some "Drosophila melanogaster",
    accessions := ["CHR_X/NC_004354"] }

/-- Sample configuration with two accessions. -/
def confDmel2 : GenhubConfig :=
  { source := some "ncbi_flybase", species := some "Drosophila melanogaster",
    accessions := ["CHR_X/NC_004354", "CHR_4/NC_004353"] }

/-- Sample configuration with the six Dmel accessions of the unit tests. -/
def confDmel6 : GenhubConfig :=
  { source := some "ncbi_flybase", species := some "Drosophila melanogaster",
    accessions := ["CHR_X/NC_004354", "CHR_2/NT_033778", "CHR_2/NT_033779",
      "CHR_3/NT_033777", "CHR_3/NT_037436", "CHR_4/NC_004353"] }

/-- Sample configuration differing from `confDmel1` only in species. -/
def confOther : GenhubConfig :=
  { source := some "ncbi_flybase", species := some "Apis mellifera",
    accessions := ["CHR_X/NC_004354"] }

/-- The connector record that `FlyBaseDB.init` produces on success for a
given label (with workdir `.`). -/
def dbOf (label : String) (c : GenhubConfig) : FlyBaseDB :=
  { label := label, workdir := ".", config := c, specbase := fbBase }

/-!  ## Helper lemmas -/

theorem init_ok_shape {label workdir : String} {conf : GenhubConfig}
    {db : FlyBaseDB}
    (h : FlyBaseDB.init label conf workdir = Except.ok db) :
    db.label = label ∧ db.workdir = workdir ∧ db.config = conf ∧
    db.specbase = fbBase ∧ conf.source = some "ncbi_flybase" ∧
    conf.species.isSome = true := by
  obtain ⟨osrc, osp, accs⟩ := conf
  cases osrc with
  | none => simp [FlyBaseDB.init] at h
  | some src =>
      by_cases hsrc : src = "ncbi_flybase"
      · subst hsrc
        cases osp with
        | none => simp [FlyBaseDB.init] at h
        | some sp =>
            simp only [FlyBaseDB.init, if_pos] at h
            cases h
            exact ⟨rfl, rfl, rfl, rfl, rfl, rfl⟩
      · simp [FlyBaseDB.init, hsrc] at h

theorem getD_map_lt {α β : Type} (f : α → β) (l : List α) (i : Nat)
    (h : i < l.length) (d : α) (d' : β) :
    (l.map f).getD i d' = f (l.getD i d) := by
  simp [List.getD_eq_getElem?_getD, List.getElem?_map, List.getElem?_eq_getElem h]

theorem hasPre_iff (n : List Char) : ∀ l, hasPre n l = true ↔ ∃ t, l = n ++ t := by
  induction n with
  | nil => intro l; simp [hasPre]
  | cons a as ih =>
      intro l
      cases l with
      | nil => simp [hasPre]
      | cons b bs =>
          show (a == b && hasPre as bs) = true ↔ _
          rw [Bool.and_eq_true]
          constructor
          · rintro ⟨hab, h2⟩
            obtain ⟨t, ht⟩ := (ih bs).mp h2
            exact ⟨t, by rw [ht, beq_iff_eq.mp hab]; rfl⟩
          · rintro ⟨t, ht⟩
            rw [List.cons_append] at ht
            injection ht with h1 h2
            exact ⟨beq_iff_eq.mpr h1.symm, (ih bs).mpr ⟨t, h2⟩⟩

theorem subneedle_iff (n : List Char) :
    ∀ l, subneedle n l = true ↔ ∃ u v, l = u ++ n ++ v := by
  intro l
  induction l with
  | nil =>
      simp only [subneedle, List.isEmpty_iff]
      constructor
      · intro h; exact ⟨[], [], by simp [h]⟩
      · rintro ⟨u, v, huv⟩
        have h0 : u ++ (n ++ v) = [] := by simpa using huv.symm
        rcases List.append_eq_nil.mp h0 with ⟨-, h1⟩
        exact (List.append_eq_nil.mp h1).1
  | cons c cs ih =>
      show (hasPre n (c :: cs) || subneedle n cs) = true ↔ _
      rw [Bool.or_eq_true, hasPre_iff, ih]
      constructor
      · rintro (⟨t, ht⟩ | ⟨u, v, huv⟩)
        · exact ⟨[], t, by simpa using ht⟩
        · exact ⟨c :: u, v, by simp [huv]⟩
      · rintro ⟨u, v, huv⟩
        cases u with
        | nil => exact Or.inl ⟨v, by simpa using huv⟩
        | cons x u2 =>
            rw [List.cons_append, List.cons_append] at huv
            injection huv with h1 h2
            exact Or.inr ⟨u2, v, h2⟩

theorem surfaceLines_eq_filter : ∀ ls, surfaceLines ls = ls.filter surfacePred := by
  intro ls
  induction ls with
  | nil => rfl
  | cons l ls ih =>
      by_cases h : surfacePred l <;> simp [surfaceLines, List.filter_cons, h, ih]

theorem giRefGb_some_decomp {s3 s4 : List Char} {rl : Nat}
    (h : giRefGb s3 = some (rl, s4)) :
    (rl = 3 ∧ s3 = 'r' :: 'e' :: 'f' :: s4) ∨
    (rl = 2 ∧ s3 = 'g' :: 'b' :: s4) := by
  rcases s3 with _ | ⟨a, _ | ⟨b, _ | ⟨c, s4'⟩⟩⟩
  · simp [giRefGb] at h
  · simp [giRefGb] at h
  · simp only [giRefGb] at h
    by_cases ha : (a == 'r') = true
    · simp [ha] at h
    · rw [if_neg ha] at h
      by_cases hab : (a == 'g' && b == 'b') = true
      · rw [if_pos hab] at h
        cases h
        obtain ⟨ha2, hb2⟩ : a = 'g' ∧ b = 'b' := by
          simpa [Bool.and_eq_true] using hab
        exact Or.inr ⟨rfl, by rw [ha2, hb2]⟩
      · rw [if_neg hab] at h; cases h
  · simp only [giRefGb] at h
    by_cases ha : (a == 'r') = true
    · rw [if_pos ha] at h
      by_cases hbc : (b == 'e' && c == 'f') = true
      · rw [if_pos hbc] at h
        cases h
        obtain ⟨hb, hc⟩ : b = 'e' ∧ c = 'f' := by
          simpa [Bool.and_eq_true] using hbc
        exact Or.inl ⟨rfl, by rw [beq_iff_eq.mp ha, hb, hc]⟩
      · rw [if_neg hbc] at h; cases h
    · rw [if_neg ha] at h
      by_cases hab : (a == 'g' && b == 'b') = true
      · rw [if_pos hab] at h
        cases h
        obtain ⟨ha2, hb2⟩ : a = 'g' ∧ b = 'b' := by
          simpa [Bool.and_eq_true] using hab
        exact Or.inr ⟨rfl, by rw [ha2, hb2]⟩
      · rw [if_neg hab] at h; cases h

theorem structAfterGi_some_decomp {s1 g : List Char} {n : Nat}
    (h : structAfterGi s1 = some (g, n)) :
    ∃ s3 rl s4 s5 glen,
      s1.dropWhile Char.isDigit = '|' :: s3 ∧
      1 ≤ (s1.takeWhile Char.isDigit).length ∧
      giRefGb s3 = some (rl, s4) ∧
      s4 = '|' :: s5 ∧
      groupMatch s5 = some (g, glen) ∧
      n = 4 + (s1.takeWhile Char.isDigit).length + 1 + rl + 1 + glen := by
  simp only [structAfterGi] at h
  rcases hdw : s1.dropWhile Char.isDigit with _ | ⟨e, s3⟩ <;> simp only [hdw] at h
  · cases h
  · by_cases hc : ((s1.takeWhile Char.isDigit).length == 0 || !(e == '|')) = true
    · rw [if_pos hc] at h; cases h
    · rw [if_neg hc] at h
      have hds : (s1.takeWhile Char.isDigit).length ≠ 0 ∧ e = '|' := by
        simpa [Bool.or_eq_true, not_or] using hc
      rcases hr : giRefGb s3 with _ | ⟨rl, s4⟩ <;> simp only [hr] at h
      · cases h
      · rcases hs4 : s4 with _ | ⟨f, s5⟩ <;> simp only [hs4] at h
        · cases h
        · by_cases hf : (f == '|') = true
          · rw [if_pos hf] at h
            rcases hg : groupMatch s5 with _ | ⟨g2, glen⟩ <;> simp only [hg] at h
            · cases h
            · cases h
              refine ⟨s3, rl, s4, s5, glen, ?_, ?_, hr, ?_, hg, rfl⟩
              · rw [hds.2]
              · omega
              · rw [hs4, beq_iff_eq.mp hf]
          · rw [if_neg hf] at h; cases h

theorem structAfterGi_pos {s1 g : List Char} {n : Nat}
    (h : structAfterGi s1 = some (g, n)) : 1 ≤ n := by
  obtain ⟨s3, rl, s4, s5, glen, -, -, -, -, -, hn⟩ := structAfterGi_some_decomp h
  omega

theorem giMatch_pos {s g : List Char} {n : Nat}
    (h : giMatch s = some (g, n)) : 1 ≤ n := by
  unfold giMatch at h
  split at h
  · split at h
    · exact structAfterGi_pos h
    · cases h
  · cases h

theorem gisubGo_eq : ∀ f1 f2 : Nat, ∀ s : List Char,
    s.length ≤ f1 → s.length ≤ f2 → gisubGo f1 s = gisubGo f2 s := by
  intro f1
  induction f1 with
  | zero =>
      intro f2 s h1 _
      have hs : s = [] := List.length_eq_zero.mp (Nat.le_zero.mp h1)
      subst hs
      cases f2 <;> rfl
  | succ f ih =>
      intro f2 s h1 h2
      cases s with
      | nil => cases f2 <;> rfl
      | cons c cs =>
          cases f2 with
          | zero => simp at h2
          | succ f2' =>
              rcases hm : giMatch (c :: cs) with _ | ⟨g, n⟩
              · simp only [gisubGo, hm]
                have e1 : cs.length ≤ f := by
                  simp only [List.length_cons] at h1; omega
                have e2 : cs.length ≤ f2' := by
                  simp only [List.length_cons] at h2; omega
                rw [ih f2' cs e1 e2]
              · have hn := giMatch_pos hm
                simp only [gisubGo, hm]
                have e1 : (List.drop n (c :: cs)).length ≤ f := by
                  simp only [List.length_drop, List.length_cons] at *; omega
                have e2 : (List.drop n (c :: cs)).length ≤ f2' := by
                  simp only [List.length_drop, List.length_cons] at *; omega
                rw [ih f2' _ e1 e2]

theorem gisub_cons (c : Char) (cs : List Char) :
    gisub (c :: cs) =
      match giMatch (c :: cs) with
      | some (g, n) => '>' :: (g ++ gisub (List.drop n (c :: cs)))
      | none => c :: gisub cs := by
  show gisubGo (c :: cs).length (c :: cs) = _
  rcases hm : giMatch (c :: cs) with _ | ⟨g, n⟩
  · simp only [List.length_cons, gisubGo, hm]
    rfl
  · simp only [List.length_cons, gisubGo, hm]
    have hn := giMatch_pos hm
    have hle : (List.drop n (c :: cs)).length ≤ cs.length := by
      simp only [List.length_drop, List.length_cons]; omega
    rw [gisubGo_eq cs.length (List.drop n (c :: cs)).length _ hle le_rfl]
    rfl

theorem takeWhile_append_neg {p : Char → Bool} {c : Char} (hc : p c = false)
    (x z : List Char) : (x ++ c :: z).takeWhile p = x.takeWhile p := by
  induction x with
  | nil => simp [List.takeWhile_cons, hc]
  | cons a x ih =>
      by_cases ha : p a = true
      · simp [List.takeWhile_cons, ha, ih]
      · simp [List.takeWhile_cons, ha]

theorem dropWhile_append_neg {p : Char → Bool} {c : Char} (hc : p c = false)
    (x z : List Char) : (x ++ c :: z).dropWhile p = x.dropWhile p ++ c :: z := by
  induction x with
  | nil => simp [List.dropWhile_cons, hc]
  | cons a x ih =>
      by_cases ha : p a = true
      · simp [List.dropWhile_cons, ha, ih]
      · simp [List.dropWhile_cons, ha]

theorem drop_length_takeWhile (p : Char → Bool) (l : List Char) :
    l.drop (l.takeWhile p).length = l.dropWhile p := by
  induction l with
  | nil => rfl
  | cons a l ih =>
      by_cases ha : p a = true
      · simp [List.takeWhile_cons, List.dropWhile_cons, ha, ih]
      · simp [List.takeWhile_cons, List.dropWhile_cons, ha]

theorem dropWhile_head_neg {p : Char → Bool} {l : List Char} {c : Char}
    {cs : List Char} (h : l.dropWhile p = c :: cs) : p c = false := by
  induction l with
  | nil => cases h
  | cons a l ih =>
      by_cases ha : p a = true
      · rw [List.dropWhile_cons, if_pos ha] at h; exact ih h
      · rw [List.dropWhile_cons, if_neg ha] at h
        injection h with h1 _
        rw [← h1]
        simpa using ha

theorem take_takeWhile_mem {p : Char → Bool} :
    ∀ (l : List Char) (k : Nat), k ≤ (l.takeWhile p).length →
      ∀ ch ∈ l.take k, p ch = true := by
  intro l
  induction l with
  | nil => intro k hk ch hch; simp at hch
  | cons a l ih =>
      intro k hk ch hch
      by_cases ha : p a = true
      · cases k with
        | zero => simp at hch
        | succ k2 =>
            rw [List.take_succ_cons] at hch
            rcases List.mem_cons.mp hch with h | h
            · rw [h]; exact ha
            · refine ih k2 ?_ ch h
              rw [List.takeWhile_cons, if_pos ha, List.length_cons] at hk
              omega
      · rw [List.takeWhile_cons, if_neg ha] at hk
        simp only [List.length_nil, Nat.le_zero] at hk
        subst hk
        simp at hch

theorem giMatch_some_shape {s g : List Char} {n : Nat}
    (h : giMatch s = some (g, n)) :
    ∃ t, s = '>' :: 'g' :: 'i' :: '|' :: t ∧ structAfterGi t = some (g, n) := by
  rcases s with _ | ⟨a, _ | ⟨b, _ | ⟨c, _ | ⟨d, t⟩⟩⟩⟩
  · simp [giMatch] at h
  · simp [giMatch] at h
  · simp [giMatch] at h
  · simp [giMatch] at h
  · simp only [giMatch] at h
    by_cases hcond : (a == '>' && b == 'g' && c == 'i' && d == '|') = true
    · rw [if_pos hcond] at h
      obtain ⟨ha, hb, hc2, hd⟩ : a = '>' ∧ b = 'g' ∧ c = 'i' ∧ d = '|' := by
        simpa [Bool.and_eq_true, and_assoc] using hcond
      exact ⟨t, by rw [ha, hb, hc2, hd], h⟩
    · rw [if_neg hcond] at h; cases h

theorem giMatch_eq_none {u : List Char}
    (h : ∀ t, u ≠ '>' :: 'g' :: 'i' :: '|' :: t) : giMatch u = none := by
  cases hm : giMatch u with
  | none => rfl
  | some r =>
      obtain ⟨g2, n2⟩ := r
      obtain ⟨t, ht, -⟩ := giMatch_some_shape hm
      exact absurd ht (h t)

theorem groupSearch_some {s5 : List Char} :
    ∀ j {g : List Char} {glen : Nat}, groupSearch s5 j = some (g, glen) →
      ∃ k, 1 ≤ k ∧ k ≤ j ∧ groupTry s5 k = some (g, glen) := by
  intro j
  induction j with
  | zero => intro g glen h; cases h
  | succ j2 ih =>
      intro g glen h
      unfold groupSearch at h
      rcases ht : groupTry s5 (j2 + 1) with _ | r <;> simp only [ht] at h
      · obtain ⟨k, h1, h2, h3⟩ := ih h
        exact ⟨k, h1, Nat.le_succ_of_le h2, h3⟩
      · cases h
        exact ⟨j2 + 1, Nat.succ_le_succ (Nat.zero_le _), le_rfl, ht⟩

theorem groupTry_some {s5 g : List Char} {k glen : Nat}
    (h : groupTry s5 k = some (g, glen)) :
    g = s5.take k ∧ ∃ c rest, s5.drop k = c :: rest ∧ isWSb c = false ∧
      glen = k + 1 + (rest.takeWhile nonWS).length := by
  unfold groupTry at h
  rcases hd : s5.drop k with _ | ⟨c, rest⟩ <;> simp only [hd] at h
  · cases h
  · by_cases hc : isWSb c = true
    · rw [if_pos hc] at h; cases h
    · rw [if_neg hc] at h
      cases h
      exact ⟨rfl, c, rest, rfl, by simpa using hc, rfl⟩

theorem groupMatch_some {s5 g : List Char} {glen : Nat}
    (h : groupMatch s5 = some (g, glen)) :
    ∃ k, 1 ≤ k ∧ k ≤ (s5.takeWhile notBar).length ∧
      g = s5.take k ∧ ∃ c rest, s5.drop k = c :: rest ∧ isWSb c = false ∧
        glen = k + 1 + (rest.takeWhile nonWS).length := by
  obtain ⟨k, h1, h2, h3⟩ := groupSearch_some _ h
  obtain ⟨hg, c, rest, hd, hc, hglen⟩ := groupTry_some h3
  exact ⟨k, h1, h2, hg, c, rest, hd, hc, hglen⟩

theorem groupMatch_no_bar {s5 g : List Char} {glen : Nat}
    (h : groupMatch s5 = some (g, glen)) : ∀ ch ∈ g, ch ≠ '|' := by
  obtain ⟨k, -, h2, hg, -⟩ := groupMatch_some h
  intro ch hch heq
  have hmem := take_takeWhile_mem (p := notBar) s5 k h2 ch (hg ▸ hch)
  rw [heq] at hmem
  simp [notBar] at hmem

theorem groupMatch_drop_ws {s5 g : List Char} {glen : Nat}
    (h : groupMatch s5 = some (g, glen)) :
    s5.drop glen = [] ∨ ∃ c cs, s5.drop glen = c :: cs ∧ isWSb c = true := by
  obtain ⟨k, -, -, -, c, rest, hd, -, hglen⟩ := groupMatch_some h
  subst hglen
  have e1 : s5.drop (k + 1 + (rest.takeWhile nonWS).length)
      = rest.drop (rest.takeWhile nonWS).length := by
    rw [← List.drop_drop, ← List.drop_drop, hd]
    rfl
  rw [e1, drop_length_takeWhile]
  rcases hdw : rest.dropWhile nonWS with _ | ⟨c2, cs2⟩
  · exact Or.inl rfl
  · refine Or.inr ⟨c2, cs2, rfl, ?_⟩
    have hneg := dropWhile_head_neg hdw
    simpa [nonWS] using hneg

theorem giMatch_no_bar {s g : List Char} {n : Nat}
    (h : giMatch s = some (g, n)) : ∀ ch ∈ g, ch ≠ '|' := by
  obtain ⟨t, -, ht⟩ := giMatch_some_shape h
  obtain ⟨s3, rl, s4, s5, glen, -, -, -, -, hg, -⟩ := structAfterGi_some_decomp ht
  exact groupMatch_no_bar hg

theorem giMatch_drop_ws {s g : List Char} {n : Nat}
    (h : giMatch s = some (g, n)) :
    s.drop n = [] ∨ ∃ c cs, s.drop n = c :: cs ∧ isWSb c = true := by
  obtain ⟨t, hs, ht⟩ := giMatch_some_shape h
  obtain ⟨s3, rl, s4, s5, glen, hdw, -, hr, hs4, hg, hn⟩ :=
    structAfterGi_some_decomp ht
  have e : s.drop n = s5.drop glen := by
    subst hs
    subst hn
    rw [show 4 + (t.takeWhile Char.isDigit).length + 1 + rl + 1 + glen
        = 4 + ((t.takeWhile Char.isDigit).length + (1 + (rl + (1 + glen))))
      from by omega]
    rw [← List.drop_drop]
    rw [show List.drop 4 ('>' :: 'g' :: 'i' :: '|' :: t) = t from rfl]
    rw [← List.drop_drop, drop_length_takeWhile, hdw]
    rw [show (1 + (rl + (1 + glen))) = (rl + (1 + glen)) + 1 from by omega]
    rw [List.drop_succ_cons]
    rcases giRefGb_some_decomp hr with ⟨hrl, hs3⟩ | ⟨hrl, hs3⟩
    · subst hrl
      rw [hs3, show (3 : Nat) + (1 + glen) = (1 + glen) + 1 + 1 + 1 from by omega]
      rw [List.drop_succ_cons, List.drop_succ_cons, List.drop_succ_cons, hs4]
      rw [show (1 : Nat) + glen = glen + 1 from by omega, List.drop_succ_cons]
    · subst hrl
      rw [hs3, show (2 : Nat) + (1 + glen) = (1 + glen) + 1 + 1 from by omega]
      rw [List.drop_succ_cons, List.drop_succ_cons, hs4]
      rw [show (1 : Nat) + glen = glen + 1 from by omega, List.drop_succ_cons]
  rw [e]
  exact groupMatch_drop_ws hg

theorem groupMatch_isSome_of_bar {l : List Char} {h0 : Char} {l0 : List Char}
    (hl : l = h0 :: l0) (hh : notBar h0 = true) (hbar : '|' ∈ l) :
    ∃ r, groupMatch l = some r := by
  have hdwne : l.dropWhile notBar ≠ [] := by
    intro hnil
    have hall : l.takeWhile notBar = l := by
      have e := List.takeWhile_append_dropWhile notBar l
      rw [hnil] at e
      simpa using e
    have := List.mem_takeWhile_imp (hall.symm ▸ hbar)
    simp [notBar] at this
  rcases hd2 : l.dropWhile notBar with _ | ⟨c2, rest2⟩
  · exact absurd hd2 hdwne
  · have hc2 : notBar c2 = false := dropWhile_head_neg hd2
    have hc2bar : c2 = '|' := by simpa [notBar] using hc2
    have hm1 : 1 ≤ (l.takeWhile notBar).length := by
      rw [hl, List.takeWhile_cons, if_pos hh]
      simp
    have htry : ∃ r, groupTry l (l.takeWhile notBar).length = some r := by
      unfold groupTry
      rw [drop_length_takeWhile]
      simp only [hd2]
      rw [if_neg (by rw [hc2bar]; decide)]
      exact ⟨_, rfl⟩
    obtain ⟨r, htry⟩ := htry
    rcases hm : (l.takeWhile notBar).length with _ | m2
    · omega
    · refine ⟨r, ?_⟩
      rw [hm] at htry
      unfold groupMatch
      rw [hm]
      unfold groupSearch
      simp only [htry]

theorem groupMatch_mono {x t Y : List Char}
    (h : groupMatch (x ++ '>' :: 'g' :: 'i' :: '|' :: t) = none) :
    groupMatch (x ++ '>' :: Y) = none := by
  rcases x with _ | ⟨h0, x'⟩
  · exfalso
    obtain ⟨r, hr⟩ := groupMatch_isSome_of_bar
      (l := '>' :: 'g' :: 'i' :: '|' :: t) rfl (by decide) (by simp)
    simp only [List.nil_append] at h
    rw [hr] at h
    cases h
  · by_cases hb : h0 = '|'
    · subst hb
      unfold groupMatch
      rw [show (('|' :: x') ++ '>' :: Y).takeWhile notBar = [] from by
        rw [List.cons_append, List.takeWhile_cons]
        simp [notBar]]
      rfl
    · exfalso
      obtain ⟨r, hr⟩ := groupMatch_isSome_of_bar
        (l := (h0 :: x') ++ '>' :: 'g' :: 'i' :: '|' :: t) rfl
        (by simp [notBar, hb]) (by simp)
      rw [hr] at h
      cases h

theorem giRefGb_append (x : List Char) :
    (∀ Z : List Char, giRefGb (x ++ '>' :: Z) = none) ∨
    (∃ rl x4, ∀ Z : List Char, giRefGb (x ++ '>' :: Z) = some (rl, x4 ++ '>' :: Z)) := by
  rcases x with _ | ⟨a, _ | ⟨b, _ | ⟨c, x4⟩⟩⟩
  · left
    intro Z
    rcases Z with _ | ⟨z, Z2⟩
    · rfl
    · simp [giRefGb]
  · left
    intro Z
    simp only [List.cons_append, List.nil_append, giRefGb]
    by_cases ha : (a == 'r') = true
    · rw [if_pos ha]
      rcases Z with _ | ⟨z, Z2⟩
      · rfl
      · simp
    · rw [if_neg ha]
      simp
  · by_cases ha : (a == 'r') = true
    · left
      intro Z
      simp only [List.cons_append, List.nil_append, giRefGb]
      rw [if_pos ha]
      simp
    · by_cases hab : (a == 'g' && b == 'b') = true
      · right
        refine ⟨2, [], fun Z => ?_⟩
        simp only [List.cons_append, List.nil_append, giRefGb]
        rw [if_neg ha, if_pos hab]
      · left
        intro Z
        simp only [List.cons_append, List.nil_append, giRefGb]
        rw [if_neg ha, if_neg hab]
  · by_cases ha : (a == 'r') = true
    · by_cases hbc : (b == 'e' && c == 'f') = true
      · right
        refine ⟨3, x4, fun Z => ?_⟩
        simp only [List.cons_append, giRefGb]
        rw [if_pos ha, if_pos hbc]
      · left
        intro Z
        simp only [List.cons_append, giRefGb]
        rw [if_pos ha, if_neg hbc]
    · by_cases hab : (a == 'g' && b == 'b') = true
      · right
        refine ⟨2, c :: x4, fun Z => ?_⟩
        simp only [List.cons_append, giRefGb]
        rw [if_neg ha, if_pos hab]
      · left
        intro Z
        simp only [List.cons_append, giRefGb]
        rw [if_neg ha, if_neg hab]

theorem structAfterGi_mono {x t Y : List Char}
    (h : structAfterGi (x ++ '>' :: 'g' :: 'i' :: '|' :: t) = none) :
    structAfterGi (x ++ '>' :: Y) = none := by
  have hgt : Char.isDigit '>' = false := by decide
  have htw : ∀ Z : List Char, ((x ++ '>' :: Z).takeWhile Char.isDigit)
      = x.takeWhile Char.isDigit := fun Z => takeWhile_append_neg hgt x Z
  have hdw : ∀ Z : List Char, ((x ++ '>' :: Z).dropWhile Char.isDigit)
      = x.dropWhile Char.isDigit ++ '>' :: Z := fun Z => dropWhile_append_neg hgt x Z
  simp only [structAfterGi, htw, hdw] at h ⊢
  rcases hx : x.dropWhile Char.isDigit with _ | ⟨e, x'⟩
  · simp only [hx, List.nil_append] at h ⊢
    simp
  · simp only [hx, List.cons_append] at h ⊢
    by_cases hc : ((x.takeWhile Char.isDigit).length == 0 || !(e == '|')) = true
    · rw [if_pos hc]
    · rw [if_neg hc] at h ⊢
      rcases giRefGb_append x' with hnone | ⟨rl, x4, hsome⟩
      · simp only [hnone Y]
      · rcases x4 with _ | ⟨f, x5⟩
        · simp only [hsome Y, List.nil_append]
          simp
        · simp only [hsome ('g' :: 'i' :: '|' :: t), List.cons_append] at h
          simp only [hsome Y, List.cons_append]
          by_cases hf : (f == '|') = true
          · rw [if_pos hf] at h ⊢
            rcases hg : groupMatch (x5 ++ '>' :: 'g' :: 'i' :: '|' :: t)
              with _ | ⟨g2, glen⟩
            · simp only [groupMatch_mono hg]
            · simp only [hg] at h
              cases h
          · rw [if_neg hf]
  -- end

theorem giMatch_mono {p t Y : List Char} (hp : p ≠ [])
    (h : giMatch (p ++ '>' :: 'g' :: 'i' :: '|' :: t) = none) :
    giMatch (p ++ '>' :: Y) = none := by
  rcases p with _ | ⟨a, _ | ⟨b, _ | ⟨c, _ | ⟨d, p'⟩⟩⟩⟩
  · exact absurd rfl hp
  · rcases Y with _ | ⟨y1, _ | ⟨y2, Y2⟩⟩
    · rfl
    · rfl
    · simp [giMatch]
  · rcases Y with _ | ⟨y1, Y2⟩
    · rfl
    · simp [giMatch]
  · simp [giMatch]
  · simp only [List.cons_append, giMatch] at h ⊢
    by_cases hcond : (a == '>' && b == 'g' && c == 'i' && d == '|') = true
    · rw [if_pos hcond] at h ⊢
      exact structAfterGi_mono h
    · rw [if_neg hcond]

theorem suffix_append_split {u x y : List Char} (h : u <:+ x ++ y) :
    u <:+ y ∨ ∃ v, v <:+ x ∧ v ≠ [] ∧ u = v ++ y := by
  induction x with
  | nil => left; simpa using h
  | cons a x ih =>
      rw [List.cons_append] at h
      rcases List.suffix_cons_iff.mp h with h | h
      · right
        exact ⟨a :: x, List.suffix_refl _, by simp, by rw [h, List.cons_append]⟩
      · rcases ih h with h2 | ⟨v, hv, hvne, hu⟩
        · left; exact h2
        · right; exact ⟨v, hv.trans (List.suffix_cons a x), hvne, hu⟩

theorem suffix_append_right {p pre r : List Char} (h : p <:+ pre) :
    p ++ r <:+ pre ++ r := by
  obtain ⟨q, hq⟩ := h
  exact ⟨q, by rw [← hq, List.append_assoc]⟩

theorem gisub_scan (s : List Char) :
    (gisub s = s ∧ NoMatch s) ∨
    (∃ pre g n rest, s = pre ++ rest ∧ giMatch rest = some (g, n) ∧
      gisub s = pre ++ '>' :: (g ++ gisub (List.drop n rest)) ∧
      ∀ u, u <:+ s → rest.length < u.length → giMatch u = none) := by
  induction s with
  | nil =>
      refine Or.inl ⟨rfl, fun u hu => ?_⟩
      rw [List.suffix_nil.mp hu]
      rfl
  | cons c cs ih =>
      rcases hm : giMatch (c :: cs) with _ | ⟨g, n⟩
      · rcases ih with ⟨he, hnm⟩ | ⟨pre, g, n, rest, hseq, hrest, he, hlong⟩
        · refine Or.inl ⟨?_, ?_⟩
          · rw [gisub_cons]
            simp only [hm]
            rw [he]
          · intro u hu
            rcases List.suffix_cons_iff.mp hu with h | h
            · rw [h]; exact hm
            · exact hnm u h
        · refine Or.inr ⟨c :: pre, g, n, rest, ?_, hrest, ?_, ?_⟩
          · rw [List.cons_append, ← hseq]
          · rw [gisub_cons]
            simp only [hm]
            rw [he, List.cons_append]
          · intro u hu hlen
            rcases List.suffix_cons_iff.mp hu with h | h
            · rw [h]; exact hm
            · exact hlong u h hlen
      · refine Or.inr ⟨[], g, n, c :: cs, rfl, hm, ?_, ?_⟩
        · rw [gisub_cons]
          simp only [hm]
          rw [List.nil_append]
        · intro u hu hlen
          have := List.IsSuffix.length_le hu
          omega

theorem giMatch_none_replacement {v w : List Char} (hv : v ≠ [])
    (hbar : ∀ ch ∈ v, ch ≠ '|')
    (hw : w = [] ∨ ∃ cw w2, w = cw :: w2 ∧ isWSb cw = true) :
    giMatch (v ++ w) = none := by
  apply giMatch_eq_none
  intro t ht
  rcases v with _ | ⟨a, _ | ⟨b, _ | ⟨c, _ | ⟨d, v2⟩⟩⟩⟩
  · exact hv rfl
  · simp only [List.cons_append, List.nil_append] at ht
    injection ht with h1 h2
    rcases hw with hw | ⟨cw, w2, hw, hws⟩
    · rw [hw] at h2; cases h2
    · rw [hw] at h2
      injection h2 with h3 _
      rw [h3] at hws
      exact absurd hws (by decide)
  · simp only [List.cons_append, List.nil_append] at ht
    injection ht with h1 rest1
    injection rest1 with h2 h3
    rcases hw with hw | ⟨cw, w2, hw, hws⟩
    · rw [hw] at h3; cases h3
    · rw [hw] at h3
      injection h3 with h4 _
      rw [h4] at hws
      exact absurd hws (by decide)
  · simp only [List.cons_append, List.nil_append] at ht
    injection ht with h1 rest1
    injection rest1 with h2 rest2
    injection rest2 with h3 h4
    rcases hw with hw | ⟨cw, w2, hw, hws⟩
    · rw [hw] at h4; cases h4
    · rw [hw] at h4
      injection h4 with h5 _
      rw [h5] at hws
      exact absurd hws (by decide)
  · simp only [List.cons_append] at ht
    injection ht with h1 rest1
    injection rest1 with h2 rest2
    injection rest2 with h3 rest3
    injection rest3 with h4 _
    exact hbar d (by simp) h4

theorem gisub_ws_head {c : Char} (hc : isWSb c = true) (cs : List Char) :
    gisub (c :: cs) = c :: gisub cs := by
  rw [gisub_cons]
  have hm : giMatch (c :: cs) = none := by
    apply giMatch_eq_none
    intro t ht
    injection ht with h1 _
    rw [h1] at hc
    exact absurd hc (by decide)
  simp only [hm]

theorem noMatch_gisub : ∀ (N : Nat) (s : List Char), s.length ≤ N →
    NoMatch (gisub s) := by
  intro N
  induction N with
  | zero =>
      intro s hs
      have he : s = [] := List.length_eq_zero.mp (Nat.le_zero.mp hs)
      subst he
      intro u hu
      rw [List.suffix_nil.mp hu]
      rfl
  | succ N ih =>
      intro s hs
      rcases gisub_scan s with ⟨he, hnm⟩ | ⟨pre, g, n, rest, hseq, hrest, he, hlong⟩
      · rw [he]; exact hnm
      · rw [he]
        obtain ⟨t, hshape, -⟩ := giMatch_some_shape hrest
        have hn1 : 1 ≤ n := giMatch_pos hrest
        have hrestpos : 1 ≤ rest.length := by rw [hshape]; simp
        have hrests : rest.length ≤ s.length := by rw [hseq]; simp
        have hdroplen : (List.drop n rest).length ≤ N := by
          simp only [List.length_drop]
          omega
        have hw : NoMatch (gisub (List.drop n rest)) := ih _ hdroplen
        have hwhead : gisub (List.drop n rest) = [] ∨
            ∃ cw w2, gisub (List.drop n rest) = cw :: w2 ∧ isWSb cw = true := by
          rcases giMatch_drop_ws hrest with hnil | ⟨cw, cs2, hd, hws⟩
          · left; rw [hnil]; rfl
          · right
            exact ⟨cw, gisub cs2, by rw [hd, gisub_ws_head hws], hws⟩
        have hgbar : ∀ ch ∈ g, ch ≠ '|' := giMatch_no_bar hrest
        intro u hu
        rcases suffix_append_split hu with hbw | ⟨p, hp, hpne, hueq⟩
        · rcases List.suffix_cons_iff.mp hbw with h | h
          · rw [h, show ('>' :: (g ++ gisub (List.drop n rest)))
                = ('>' :: g) ++ gisub (List.drop n rest) from by simp]
            refine giMatch_none_replacement (by simp) ?_ hwhead
            intro ch hch
            rcases List.mem_cons.mp hch with h2 | h2
            · rw [h2]; decide
            · exact hgbar ch h2
          · rcases suffix_append_split h with h2 | ⟨v, hv, hvne, hueq2⟩
            · exact hw u h2
            · rw [hueq2]
              exact giMatch_none_replacement hvne
                (fun ch hch => hgbar ch (hv.subset hch)) hwhead
        · rw [hueq]
          have hlong_p : giMatch (p ++ rest) = none := by
            apply hlong
            · rw [hseq]; exact suffix_append_right hp
            · have := List.length_pos.mpr hpne
              simp only [List.length_append]
              omega
          rw [hshape] at hlong_p
          exact giMatch_mono hpne hlong_p

theorem gisub_eq_of_noMatch {t : List Char} (h : NoMatch t) : gisub t = t := by
  induction t with
  | nil => rfl
  | cons c cs ih =>
      rw [gisub_cons]
      have hm : giMatch (c :: cs) = none := h _ (List.suffix_refl _)
      simp only [hm]
      rw [ih (fun u hu => h u (hu.trans (List.suffix_cons c cs)))]

theorem gisub_idem (s : List Char) : gisub (gisub s) = gisub s :=
  gisub_eq_of_noMatch (noMatch_gisub s.length s le_rfl)

theorem gisub_gt_head (cs : List Char) : ∃ r, gisub ('>' :: cs) = '>' :: r := by
  rw [gisub_cons]
  rcases hm : giMatch ('>' :: cs) with _ | ⟨g, n⟩
  · exact ⟨gisub cs, rfl⟩
  · exact ⟨g ++ gisub (List.drop n ('>' :: cs)), rfl⟩

theorem format_fasta_line_idem (l : List Char) :
    format_fasta_line (format_fasta_line l) = format_fasta_line l := by
  by_cases h : startsGt l = true
  · rcases l with _ | ⟨c, cs⟩
    · cases h
    · have hc : c = '>' := by simpa [startsGt] using h
      subst hc
      obtain ⟨r, hr⟩ := gisub_gt_head cs
      simp only [format_fasta_line, h, if_true, hr]
      rw [show startsGt ('>' :: r) = true from by simp [startsGt]]
      simp only [if_true]
      rw [← hr, gisub_idem]
  · simp [format_fasta_line, h]

/-!  ## Claims -/

/-- C1 (amended): the temporary exclusion-filter file is removed when the
external chain exits zero; on a non-zero exit status `format_gff3` raises
before the `os.unlink`, so the filter file still exists. -/
theorem claim_C1 (p e f : String) (env : ChainEnv) (st : PipeState) :
    (env.returncode = 0 →
      (format_gff3 p e f env st).state.filterFileExists = false) ∧
    (env.returncode ≠ 0 →
      (format_gff3 p e f env st).state.filterFileExists = true ∧
      ∃ msg, (format_gff3 p e f env st).result = Except.error msg) := by
  unfold format_gff3
  by_cases h : env.returncode = 0 <;> simp [h]

/-- C1 counterexample: with a non-zero chain exit status the exclusion-filter
file does exist after the call (the claim asserts it no longer exists in
this case as well). -/
theorem claim_C1_counterexample :
    (format_gff3 "x.gff3.gz" "tmp.filter" "out.gff3"
        { returncode := 1, stderr := [], chainOutput := none }
        { filterFileExists := false, canonical := none }).state.filterFileExists
      = true := by rfl

/-- Witness for C1 at concrete inputs. -/
theorem claim_C1_witness :
    ((format_gff3 "x.gff3.gz" "tmp.filter" "out.gff3"
        { returncode := 0, stderr := [], chainOutput := some "out" }
        { filterFileExists := false, canonical := none }).state.filterFileExists
      = false) ∧
    ((format_gff3 "x.gff3.gz" "tmp.filter" "out.gff3"
        { returncode := 1, stderr := [], chainOutput := none }
        { filterFileExists := false, canonical := none }).state.filterFileExists
        = true ∧
      ∃ msg, (format_gff3 "x.gff3.gz" "tmp.filter" "out.gff3"
        { returncode := 1, stderr := [], chainOutput := none }
        { filterFileExists := false, canonical := none }).result
          = Except.error msg) :=
  ⟨(claim_C1 _ _ _ _ _).1 rfl, (claim_C1 _ _ _ _ _).2 (by decide)⟩

/-- C2 counterexample: `format_fasta` does not map the example header to
`>NC_004354.4`; the text after the matched region is kept. -/
theorem claim_C2_counterexample :
    format_fasta_line
        ">gi|12345|ref|NC_004354.4| Drosophila melanogaster chromosome X".toList
      ≠ ">NC_004354.4".toList := by decide

/-- C2 (amended): `re.sub` only replaces the matched region
`>gi|12345|ref|NC_004354.4|`, so the example header is rewritten to
`>NC_004354.4 Drosophila melanogaster chromosome X` — the description after
the accession is preserved, not dropped. -/
theorem claim_C2 :
    format_fasta_line
        ">gi|12345|ref|NC_004354.4| Drosophila melanogaster chromosome X".toList
      = ">NC_004354.4 Drosophila melanogaster chromosome X".toList := by decide

/-- C4: on a non-zero exit status of the combined chain, `format_gff3`
raises an `AssertionError` (it does not return normally), and — under the
spec's toolchain contract — the canonical annotation file is unchanged. -/
theorem claim_C4 (p e f : String) (env : ChainEnv) (st : PipeState)
    (hc : ChainContract env) (h : env.returncode ≠ 0) :
    (∃ msg, (format_gff3 p e f env st).result = Except.error msg) ∧
    (format_gff3 p e f env st).state.canonical = st.canonical := by
  have hout : env.chainOutput = none := hc h
  unfold format_gff3
  simp [h, hout]

/-- Witness for C4 at concrete inputs. -/
theorem claim_C4_witness :
    (∃ msg, (format_gff3 "x.gff3.gz" "tmp.filter" "out.gff3"
        { returncode := 1, stderr := [], chainOutput := none }
        { filterFileExists := false, canonical := some "old" }).result
          = Except.error msg) ∧
    (format_gff3 "x.gff3.gz" "tmp.filter" "out.gff3"
        { returncode := 1, stderr := [], chainOutput := none }
        { filterFileExists := false, canonical := some "old" }).state.canonical
      = some "old" :=
  claim_C4 _ _ _ _ _ (fun _ => rfl) (by decide)

/-- C5: `format_fasta` is idempotent — applying the transform twice equals
applying it once — and every line not beginning with `>` appears in the
output byte-identical and in its original position. -/
theorem claim_C5 (lines : List (List Char)) :
    format_fasta (format_fasta lines) = format_fasta lines ∧
    (format_fasta lines).length = lines.length ∧
    (∀ i, i < lines.length → startsGt (lines.getD i []) = false →
      (format_fasta lines).getD i [] = lines.getD i []) := by
  refine ⟨?_, ?_, ?_⟩
  · unfold format_fasta
    rw [List.map_map]
    refine List.map_congr_left fun l _ => ?_
    simp only [Function.comp_apply]
    exact format_fasta_line_idem l
  · simp [format_fasta]
  · intro i hi hns
    unfold format_fasta
    rw [getD_map_lt format_fasta_line lines i hi []]
    simp only [format_fasta_line, hns]
    simp

/-- Witness for C5 on a concrete two-line stream. -/
theorem claim_C5_witness :
    format_fasta (format_fasta
        [">gi|12345|ref|NC_004354.4| some text".toList, "ACGT".toList])
      = format_fasta
        [">gi|12345|ref|NC_004354.4| some text".toList, "ACGT".toList] ∧
    (format_fasta
        [">gi|12345|ref|NC_004354.4| some text".toList, "ACGT".toList]).getD 1 []
      = "ACGT".toList :=
  ⟨(claim_C5 _).1,
   (claim_C5 [">gi|12345|ref|NC_004354.4| some text".toList, "ACGT".toList]).2.2
     1 (by decide) (by decide)⟩

/-- C6: the command chain run by `format_gff3` is exactly the six stages
decompress, exclusion filter, tRNA repair, generic tidy, source-specific
reformatting tagged `ncbi_flybase`, and the final sort/tidy with overwrite,
joined in this order. -/
theorem claim_C6 (p e f : String) (env : ChainEnv) (st : PipeState) :
    (format_gff3 p e f env st).command =
      String.intercalate " | "
        ["gunzip -c " ++ p,
         "grep -vf " ++ e,
         "genhub-fix-trna.py",
         "tidygff3",
         "genhub-format-gff3.py --source ncbi_flybase -",
         "gt gff3 -sort -tidy -o " ++ f ++ " -force"] := by
  unfold format_gff3 format_gff3_cmds
  by_cases h : env.returncode = 0 <;> simp [h]

/-- C7: the diagnostic lines surfaced by `format_gff3` are exactly the
non-empty lines of the chain's standard error that contain neither of the
two benign-warning substrings, in order. -/
theorem claim_C7 (p e f : String) (env : ChainEnv) (st : PipeState) :
    (format_gff3 p e f env st).log = (splitNl env.stderr).filter surfacePred ∧
    (∀ l : List Char, surfacePred l = true ↔
      (¬(∃ u v, l = u ++ needle1 ++ v) ∧ ¬(∃ u v, l = u ++ needle2 ++ v) ∧
       l ≠ [])) := by
  constructor
  · have hlog : (format_gff3 p e f env st).log
        = surfaceLines (splitNl env.stderr) := by
      unfold format_gff3
      by_cases h : env.returncode = 0 <;> simp [h]
    rw [hlog, surfaceLines_eq_filter]
  · intro l
    unfold surfacePred
    rw [Bool.and_eq_true, Bool.and_eq_true]
    simp only [Bool.not_eq_true', Bool.eq_false_iff, ne_eq, subneedle_iff,
      List.isEmpty_iff]
    tauto

/-- C3: the three URL lists have the same length as the accession list, are
index-aligned with it (entry `i` is the fixed base, `/`, accession `i`, and
the artifact extension), and any re-selection of the accession list
re-selects the three URL lists identically. -/
theorem claim_C3 (label w label2 w2 : String) (conf conf2 : GenhubConfig)
    (db db2 : FlyBaseDB) (sel : List Nat)
    (h : FlyBaseDB.init label conf w = Except.ok db)
    (_hlen : 1 ≤ conf.accessions.length) :
    (db.gdnaurl.length = conf.accessions.length ∧
     db.gff3url.length = conf.accessions.length ∧
     db.proturl.length = conf.accessions.length) ∧
    (∀ i, i < conf.accessions.length →
      db.gdnaurl.getD i "" = fbBase ++ "/" ++ conf.accessions.getD i "" ++ ".fna" ∧
      db.gff3url.getD i "" = fbBase ++ "/" ++ conf.accessions.getD i "" ++ ".gff" ∧
      db.proturl.getD i "" = fbBase ++ "/" ++ conf.accessions.getD i "" ++ ".faa") ∧
    (FlyBaseDB.init label2 conf2 w2 = Except.ok db2 →
     conf2.accessions = sel.map (fun i => conf.accessions.getD i "") →
     (∀ j ∈ sel, j < conf.accessions.length) →
     db2.gdnaurl = sel.map (fun i => db.gdnaurl.getD i "") ∧
     db2.gff3url = sel.map (fun i => db.gff3url.getD i "") ∧
     db2.proturl = sel.map (fun i => db.proturl.getD i "")) := by
  obtain ⟨-, -, hconf, hbase, -, -⟩ := init_ok_shape h
  have e1 : db.gdnaurl
      = conf.accessions.map (fun acc => fbBase ++ "/" ++ acc ++ ".fna") := by
    simp [FlyBaseDB.gdnaurl, hconf, hbase]
  have e2 : db.gff3url
      = conf.accessions.map (fun acc => fbBase ++ "/" ++ acc ++ ".gff") := by
    simp [FlyBaseDB.gff3url, hconf, hbase]
  have e3 : db.proturl
      = conf.accessions.map (fun acc => fbBase ++ "/" ++ acc ++ ".faa") := by
    simp [FlyBaseDB.proturl, hconf, hbase]
  refine ⟨⟨by simp [e1], by simp [e2], by simp [e3]⟩, ?_, ?_⟩
  · intro i hi
    exact ⟨by rw [e1, getD_map_lt _ _ i hi ""],
           by rw [e2, getD_map_lt _ _ i hi ""],
           by rw [e3, getD_map_lt _ _ i hi ""]⟩
  · intro h2 hperm hbd
    obtain ⟨-, -, hconf2, hbase2, -, -⟩ := init_ok_shape h2
    have f1 : db2.gdnaurl
        = conf2.accessions.map (fun acc => fbBase ++ "/" ++ acc ++ ".fna") := by
      simp [FlyBaseDB.gdnaurl, hconf2, hbase2]
    have f2 : db2.gff3url
        = conf2.accessions.map (fun acc => fbBase ++ "/" ++ acc ++ ".gff") := by
      simp [FlyBaseDB.gff3url, hconf2, hbase2]
    have f3 : db2.proturl
        = conf2.accessions.map (fun acc => fbBase ++ "/" ++ acc ++ ".faa") := by
      simp [FlyBaseDB.proturl, hconf2, hbase2]
    refine ⟨?_, ?_, ?_⟩
    · rw [f1, hperm, List.map_map, e1]
      refine List.map_congr_left fun j hj => ?_
      simp only [Function.comp_apply]
      exact (getD_map_lt (fun acc => fbBase ++ "/" ++ acc ++ ".fna")
        conf.accessions j (hbd j hj) "" "").symm
    · rw [f2, hperm, List.map_map, e2]
      refine List.map_congr_left fun j hj => ?_
      simp only [Function.comp_apply]
      exact (getD_map_lt (fun acc => fbBase ++ "/" ++ acc ++ ".gff")
        conf.accessions j (hbd j hj) "" "").symm
    · rw [f3, hperm, List.map_map, e3]
      refine List.map_congr_left fun j hj => ?_
      simp only [Function.comp_apply]
      exact (getD_map_lt (fun acc => fbBase ++ "/" ++ acc ++ ".faa")
        conf.accessions j (hbd j hj) "" "").symm

/-- Witness for C3 at a two-accession configuration. -/
theorem claim_C3_witness :
    (dbOf "Dmel" confDmel2).gdnaurl.length = confDmel2.accessions.length ∧
    (dbOf "Dmel" confDmel2).gdnaurl.getD 0 ""
      = fbBase ++ "/" ++ confDmel2.accessions.getD 0 "" ++ ".fna" :=
  ⟨(claim_C3 "Dmel" "." "Dmel" "." confDmel2 confDmel2 (dbOf "Dmel" confDmel2)
      (dbOf "Dmel" confDmel2) [] rfl (by decide)).1.1,
   ((claim_C3 "Dmel" "." "Dmel" "." confDmel2 confDmel2 (dbOf "Dmel" confDmel2)
      (dbOf "Dmel" confDmel2) [] rfl (by decide)).2.1 0 (by decide)).1⟩

/-- C8: construction fails with an explicit error whenever the `source`
value is not `ncbi_flybase` or the `species` key is missing, succeeds
exactly when both requirements hold, and on success stores the given
configuration unchanged (no defaults are substituted). -/
theorem claim_C8 (label : String) (conf : GenhubConfig) (w : String) :
    ((FlyBaseDB.init label conf w).isOk = true ↔
      (conf.source = some "ncbi_flybase" ∧ conf.species.isSome = true)) ∧
    (∀ db, FlyBaseDB.init label conf w = Except.ok db →
      db.config = conf ∧ db.label = label) ∧
    ((conf.source ≠ some "ncbi_flybase" ∨ conf.species = none) →
      ∃ msg, FlyBaseDB.init label conf w = Except.error msg) := by
  refine ⟨?_, ?_, ?_⟩
  · obtain ⟨osrc, osp, accs⟩ := conf
    cases osrc with
    | none => simp [FlyBaseDB.init, Except.isOk, Except.toBool]
    | some src =>
        by_cases hsrc : src = "ncbi_flybase"
        · subst hsrc
          cases osp with
          | none => simp [FlyBaseDB.init, Except.isOk, Except.toBool]
          | some sp => simp [FlyBaseDB.init, Except.isOk, Except.toBool]
        · simp [FlyBaseDB.init, Except.isOk, Except.toBool, hsrc]
  · intro db hdb
    obtain ⟨h1, -, h3, -, -, -⟩ := init_ok_shape hdb
    exact ⟨h3, h1⟩
  · intro hbad
    cases hinit : FlyBaseDB.init label conf w with
    | error msg => exact ⟨msg, rfl⟩
    | ok db =>
        obtain ⟨-, -, -, -, h5, h6⟩ := init_ok_shape hinit
        rcases hbad with hbad | hbad
        · exact absurd h5 hbad
        · rw [hbad] at h6; cases h6

/-- Witness for C8: a good configuration constructs and keeps its config; a
bad source and a missing species each fail with an explicit error. -/
theorem claim_C8_witness :
    (∀ db, FlyBaseDB.init "Dmel"
        { source := some "ncbi_flybase", species := some "Drosophila melanogaster",
          accessions := [] } "." = Except.ok db →
      db.config = { source := some "ncbi_flybase",
                    species := some "Drosophila melanogaster",
                    accessions := [] } ∧ db.label = "Dmel") ∧
    (∃ msg, FlyBaseDB.init "Dmel"
        { source := some "ncbi", species := some "x", accessions := [] } "."
      = Except.error msg) ∧
    (∃ msg, FlyBaseDB.init "Dmel"
        { source := some "ncbi_flybase", species := none, accessions := [] } "."
      = Except.error msg) :=
  ⟨(claim_C8 "Dmel" _ ".").2.1,
   (claim_C8 "Dmel" _ ".").2.2 (Or.inl (by decide)),
   (claim_C8 "Dmel" _ ".").2.2 (Or.inr rfl)⟩

/-- C9: the canonical sequence path is a function of workdir and label
alone — for label `Dmel` and workdir `.` it is `./Dmel/Dmel.orig.fa.gz`, and
two connectors agreeing on label and workdir have the same path whatever
their configurations (in particular for different accession counts). -/
theorem claim_C9 (db db1 db2 : FlyBaseDB) :
    (db.label = "Dmel" → db.workdir = "." →
      db.gdnapath = "./Dmel/Dmel.orig.fa.gz") ∧
    (db1.label = db2.label → db1.workdir = db2.workdir →
      db1.gdnapath = db2.gdnapath) := by
  constructor
  · intro h1 h2
    simp [FlyBaseDB.gdnapath, FlyBaseDB.gdnafilename, h1, h2]
  · intro h1 h2
    simp [FlyBaseDB.gdnapath, FlyBaseDB.gdnafilename, h1, h2]

/-- Witness for C9: connectors with one and with six accessions share the
canonical path `./Dmel/Dmel.orig.fa.gz`. -/
theorem claim_C9_witness :
    (dbOf "Dmel" confDmel1).gdnapath = "./Dmel/Dmel.orig.fa.gz" ∧
    (dbOf "Dmel" confDmel1).gdnapath = (dbOf "Dmel" confDmel6).gdnapath :=
  ⟨(claim_C9 (dbOf "Dmel" confDmel1) (dbOf "Dmel" confDmel1)
      (dbOf "Dmel" confDmel6)).1 rfl rfl,
   (claim_C9 (dbOf "Dmel" confDmel1) (dbOf "Dmel" confDmel1)
      (dbOf "Dmel" confDmel6)).2 rfl rfl⟩

/-- C10: for connectors accepted by the constructor the base of every URL is
the hard-coded constant, and the generated URL lists depend only on the
accession list — two accepted configurations with equal accessions (species
may differ arbitrarily) produce identical URL lists. -/
theorem claim_C10 (l1 w1 l2 w2 : String) (c1 c2 : GenhubConfig)
    (db1 db2 : FlyBaseDB)
    (h1 : FlyBaseDB.init l1 c1 w1 = Except.ok db1)
    (h2 : FlyBaseDB.init l2 c2 w2 = Except.ok db2)
    (hacc : c1.accessions = c2.accessions) :
    db1.specbase = fbBase ∧ db2.specbase = fbBase ∧
    db1.gdnaurl = db2.gdnaurl ∧ db1.gff3url = db2.gff3url ∧
    db1.proturl = db2.proturl := by
  obtain ⟨-, -, hc1, hb1, -, -⟩ := init_ok_shape h1
  obtain ⟨-, -, hc2, hb2, -, -⟩ := init_ok_shape h2
  refine ⟨hb1, hb2, ?_, ?_, ?_⟩ <;>
    simp [FlyBaseDB.gdnaurl, FlyBaseDB.gff3url, FlyBaseDB.proturl,
      hc1, hc2, hb1, hb2, hacc]

/-- Witness for C10: two configurations differing only in species produce
identical URL lists under the hard-coded base. -/
theorem claim_C10_witness :
    (dbOf "Dmel" confDmel1).specbase = fbBase ∧
    (dbOf "Other" confOther).specbase = fbBase ∧
    (dbOf "Dmel" confDmel1).gdnaurl = (dbOf "Other" confOther).gdnaurl ∧
    (dbOf "Dmel" confDmel1).gff3url = (dbOf "Other" confOther).gff3url ∧
    (dbOf "Dmel" confDmel1).proturl = (dbOf "Other" confOther).proturl :=
  claim_C10 "Dmel" "." "Other" "." confDmel1 confOther
    (dbOf "Dmel" confDmel1) (dbOf "Other" confOther) rfl rfl rfl
